import Mathlib

/-!
Shallow embedding of the codecrafters HTTP server (src/src/main.rs) and
verification of the frozen claims about it.

Conventions of the embedding:
- Rust `&str` values are modelled as Lean `String` (a list of characters);
  `str::len` (UTF-8 byte length) is modelled by `byteLen`.
- Rust `str::find` / `str::rfind` on a single character are modelled by
  `findCh` / `rfindCh` over the character list; the split positions they
  produce select the same characters as the byte-indexed Rust slices.
- Filesystem effects are modelled by a `World`: `fs` gives the content a
  successful `File::open` + full read would see (`none` when `open` fails),
  and `writeOk` tells whether the `write` of a body to an opened file
  succeeds.
- Everything a handler writes to the socket is collected in a list of
  `Sent` values: the `Response` that went through `Response::write_to`
  plus any bytes streamed directly afterwards (`tokio::io::copy` in
  `send_file`).  An empty list means the connection was closed without
  any response bytes.
-/

/-- Models Rust str::len: the UTF-8 byte length of a string. -/
def byteLen (s : String) : Nat := (s.data.map Char.utf8Size).sum

/-- Models Rust str::find(c): index of the first occurrence of the
character, None when absent (src uses line.find(' ')). -/
def findCh (c : Char) : List Char → Option Nat
  | [] => none
  | x :: xs => if x = c then some 0 else (findCh c xs).map (· + 1)

/-- Models Rust str::rfind(c): index of the last occurrence of the
character, None when absent (src uses line.rfind(' ')). -/
def rfindCh (c : Char) : List Char → Option Nat
  | [] => none
  | x :: xs =>
    match rfindCh c xs with
    | some i => some (i + 1)
    | none => if x = c then some 0 else none

/-- Models Rust str::starts_with on string patterns. -/
def startsWithStr (s p : String) : Bool := p.data.isPrefixOf s.data

/-- Models Rust str::strip_prefix(p).unwrap() at the call sites in
send_file / save_file / the echo route, where the router guard has
already established that p is a prefix of s: it drops the prefix. -/
def stripPrefixUnwrap (s p : String) : String :=
  String.mk (s.data.drop p.data.length)

/-- Models Rust str::trim_start (ASCII whitespace, which is all the
claims exercise). -/
def trimStartStr (s : String) : String :=
  String.mk (s.data.dropWhile Char.isWhitespace)

/-- Models Rust str::trim (ASCII whitespace). -/
def trimStr (s : String) : String :=
  String.mk (((s.data.dropWhile Char.isWhitespace).reverse.dropWhile
    Char.isWhitespace).reverse)

/-- Models uppercasing of an ASCII string (Rust str::to_uppercase on the
ASCII tokens the method parser sees). -/
def toUpperStr (s : String) : String :=
  String.mk (s.data.map Char.toUpper)

/-- Strip one trailing carriage return, as Rust str::lines does on each
produced line. -/
def stripCR (l : String) : String :=
  if l.data.getLast? = some '\r' then String.mk l.data.dropLast else l

/-- Split a character list at every newline character (the pieces of
Rust str::split with a newline pattern). -/
def splitNl : List Char → List (List Char)
  | [] => [[]]
  | c :: cs =>
    if c = '\n' then [] :: splitNl cs
    else
      match splitNl cs with
      | h :: t => (c :: h) :: t
      | [] => [[c]]

/-- Models Rust str::lines: split on the newline character, drop a final
empty piece produced by a trailing newline, and strip one trailing
carriage return from each line. -/
def rustLines (s : String) : List String :=
  let parts := (splitNl s.data).map String.mk
  let parts := if parts.getLast? = some "" then parts.dropLast else parts
  parts.map stripCR

/-- HttpMethod enumeration, main.rs lines 80-91. -/
inductive HttpMethod where
  | GET | POST | PUT | DELETE | PATCH | HEAD | OPTIONS | TRACE | CONNECT
deriving DecidableEq, Repr

/-- impl TryFrom for HttpMethod, main.rs lines 136-153: the token is
upper-cased and matched against the enumeration. -/
def HttpMethod.tryFrom (method : String) : Option HttpMethod :=
  match toUpperStr method with
  | "GET" => some .GET
  | "POST" => some .POST
  | "PUT" => some .PUT
  | "DELETE" => some .DELETE
  | "PATCH" => some .PATCH
  | "HEAD" => some .HEAD
  | "OPTIONS" => some .OPTIONS
  | "TRACE" => some .TRACE
  | "CONNECT" => some .CONNECT
  | _ => none

/-- HttpStatusCode enumeration, main.rs lines 99-108. -/
inductive HttpStatusCode where
  | Ok | Created | BadRequest | NotFound | InternalServerError
deriving DecidableEq, Repr

/-- impl From HttpStatusCode for usize, main.rs lines 110-120. -/
def HttpStatusCode.toNat : HttpStatusCode → Nat
  | .Ok => 200
  | .Created => 201
  | .BadRequest => 400
  | .NotFound => 404
  | .InternalServerError => 500

/-- impl Display for HttpStatusCode, main.rs lines 122-134. -/
def HttpStatusCode.reason : HttpStatusCode → String
  | .Ok => "OK"
  | .Created => "Created"
  | .BadRequest => "Bad Request"
  | .NotFound => "Not Found"
  | .InternalServerError => "Internal Server Error"

/-- struct Response, main.rs lines 25-29. -/
structure Response where
  status_code : HttpStatusCode
  headers : List (String × String)
  body : String
deriving DecidableEq, Repr

/-- impl From HttpStatusCode for Response, main.rs lines 68-72: a
response with the given status, no headers and an empty body. -/
def Response.ofStatus (sc : HttpStatusCode) : Response := ⟨sc, [], ""⟩

/-- Response::write_to, main.rs lines 46-65: the exact bytes put on the
wire for a response: status line, headers in insertion order, a blank
line, then the body verbatim. -/
def Response.writeTo (r : Response) : String :=
  (r.headers.foldl (fun buf kv => buf ++ kv.1 ++ ": " ++ kv.2 ++ "\r\n")
      ("HTTP/1.1 " ++ toString r.status_code.toNat ++ " " ++
        r.status_code.reason ++ "\r\n"))
    ++ "\r\n" ++ r.body

/-- One write sequence on the socket: the response that went through
Response::write_to, plus the bytes streamed directly after it
(tokio::io::copy of the file in send_file; empty elsewhere). -/
structure Sent where
  response : Response
  streamed : String
deriving DecidableEq, Repr

/-- The bytes of a Sent that land on the wire after the blank-line
separator written by Response::write_to. -/
def Sent.bodyBytes (s : Sent) : String := s.response.body ++ s.streamed

/-- The full wire bytes of a Sent. -/
def Sent.wire (s : Sent) : String := s.response.writeTo ++ s.streamed

/-- A Sent with nothing streamed after the response. -/
def mkSent (r : Response) : Sent := ⟨r, ""⟩

/-- The effectful environment of one connection: what File::open plus a
full read of the opened file yields for each absolute path (none when
open fails), and whether writing a given body to the opened file at a
given path succeeds. -/
structure World where
  fs : String → Option String
  writeOk : String → String → Bool

/-- split_header, main.rs lines 203-210: splitn(2) on the first colon;
a line without a colon yields None (the second next() fails); the value
is the rest after the colon with leading whitespace trimmed. -/
def split_header (header : String) : Option (String × String) :=
  match findCh ':' header.data with
  | none => none
  | some i =>
    some (String.mk (header.data.take i),
      trimStartStr (String.mk (header.data.drop (i + 1))))

/-- The request-line split of handle_connection, main.rs lines 274-279:
find the first and the last space; when they are distinct positions,
the three slices around them, each trimmed, are (method, path,
version); otherwise the line is malformed. -/
def parseRequestLineRaw (cs : List Char) : Option (String × String × String) :=
  match findCh ' ' cs, rfindCh ' ' cs with
  | some i1, some i2 =>
    if i1 ≠ i2 then
      some (trimStr (String.mk (cs.take i1)),
        trimStr (String.mk ((cs.drop (i1 + 1)).take (i2 - i1 - 1))),
        trimStr (String.mk (cs.drop (i2 + 1))))
    else none
  | _, _ => none

/-- Request-line parsing including the method parse, main.rs lines
274-289: the split above followed by HttpMethod::try_from on the method
token; both failure modes abort the parse. -/
def parseFirstLine (cs : List Char) : Option (HttpMethod × String × String) :=
  match parseRequestLineRaw cs with
  | none => none
  | some (m, p, v) =>
    match HttpMethod.tryFrom m with
    | none => none
    | some hm => some (hm, p, v)

/-- The header lines of the request, main.rs lines 293-294: the lines
after the request line up to the first empty line, each split by
split_header, lines it rejects being silently skipped. -/
def requestHeaders (ls : List String) : List (String × String) :=
  (ls.takeWhile (fun l => !(l == ""))).filterMap split_header

/-- The body fold of handle_connection, main.rs lines 296-300: fold the
remaining lines appending a newline after each, then truncate the final
newline character when the result is non-empty. -/
def foldBody (ls : List String) : String :=
  let b := ls.foldl (fun a l => a ++ l ++ "\n") ""
  if b = "" then b else String.mk b.data.dropLast

/-- The request body, main.rs lines 293-300: the take_while over the
shared lines iterator consumes the header lines and the first empty
line, so the folded lines are exactly those after the first empty
line. -/
def requestBody (ls : List String) : String :=
  foldBody ((ls.dropWhile (fun l => !(l == ""))).drop 1)

/-- send_file, main.rs lines 233-252: strip the "/files/" prefix, join
with the directory, open the file; on open failure the error propagates
and nothing is written; otherwise a 200 head with octet-stream type and
the file size as Content-Length is written, then the file content is
streamed. -/
def send_file (w : World) (path dir : String) : List Sent :=
  let file_name := stripPrefixUnwrap path "/files/"
  let absolute_path := dir ++ file_name
  match w.fs absolute_path with
  | none => []
  | some content =>
    [⟨⟨HttpStatusCode.Ok,
        [("Content-Type", "application/octet-stream"),
         ("Content-Length", toString (byteLen content))],
        ""⟩,
      content⟩]

/-- save_file, main.rs lines 254-268: strip the "/files/" prefix, join
with the directory, File::open the path (open fails when the file does
not exist, and the error then propagates with nothing written); when
open succeeds, write the body and answer Ok on write success and
InternalServerError on write failure. -/
def save_file (w : World) (path dir body : String) : List Sent :=
  let file_name := stripPrefixUnwrap path "/files/"
  let absolute_path := dir ++ file_name
  match w.fs absolute_path with
  | none => []
  | some _ =>
    [mkSent (Response.ofStatus
      (if w.writeOk absolute_path body then HttpStatusCode.Ok
       else HttpStatusCode.InternalServerError))]

/-- The route dispatch of handle_connection, main.rs lines 302-359: the
match arms on path in source order. -/
def route (w : World) (dir : Option String) (method : HttpMethod)
    (path : String) (headers : List (String × String)) (body : String) :
    List Sent :=
  if path = "/" then
    [mkSent (Response.ofStatus .Ok)]
  else if path = "/user-agent" then
    match headers.find? (fun kv => kv.1 == "User-Agent") with
    | some kv =>
      [mkSent ⟨.Ok,
        [("Content-Type", "text/plain"),
         ("Content-Length", toString (byteLen kv.2))],
        kv.2⟩]
    | none => [mkSent (Response.ofStatus .NotFound)]
  else if startsWithStr path "/echo/" then
    let message := stripPrefixUnwrap path "/echo/"
    [mkSent ⟨.Ok,
      [("Content-Type", "text/plain"),
       ("Content-Length", toString (byteLen message))],
      message⟩]
  else if startsWithStr path "/files/" then
    match dir with
    | some d =>
      if method = HttpMethod.GET then send_file w path d
      else if method = HttpMethod.POST then save_file w path d body
      else []
    | none => [mkSent (Response.ofStatus .NotFound)]
  else
    [mkSent (Response.ofStatus .NotFound)]

/-- handle_connection, main.rs lines 270-363, after the socket has been
read and decoded into buf: parse the request line (a malformed line
writes a 400 and the task then dies; an unknown method dies before
writing), parse headers and body, and dispatch on the path.  The
returned list is every response written on the socket. -/
def handle_connection (w : World) (dir : Option String) (buf : String) :
    List Sent :=
  match rustLines buf with
  | [] => [mkSent (Response.ofStatus .BadRequest)]
  | first :: rest =>
    match parseRequestLineRaw first.data with
    | none => [mkSent (Response.ofStatus .BadRequest)]
    | some (mStr, path, _version) =>
      match HttpMethod.tryFrom mStr with
      | none => []
      | some method =>
        route w dir method path (requestHeaders rest) (requestBody rest)

/-- The branch taken by the biased select in main, main.rs lines
395-402: with the biased flag, tokio polls the branches in declaration
order, main_loop first and ctrl_c second, and the first ready branch
wins. -/
inductive MainBranch where
  | acceptLoop | shutdown
deriving DecidableEq, Repr

/-- The outcome of one poll round of the select in main, main.rs lines
397-401, as a function of which branches are ready. -/
def select_biased (mainLoopReady ctrlCReady : Bool) : Option MainBranch :=
  if mainLoopReady then some .acceptLoop
  else if ctrlCReady then some .shutdown
  else none

/-- Spec-side join: the lines rejoined with a single newline between
them and no trailing newline (for comparison with foldBody). -/
def joinNL : List String → String
  | [] => ""
  | [l] => l
  | l :: ls => l ++ "\n" ++ joinNL ls

/-! ## Helper lemmas -/

theorem str_mk_data (s : String) : String.mk s.data = s := rfl

theorem str_append_empty (s : String) : s ++ "" = s := by
  cases s
  show String.mk _ = _
  simp

theorem str_empty_append (s : String) : "" ++ s = s := by
  cases s
  show String.mk _ = _
  simp [String.data]

theorem str_append_assoc (a b c : String) : a ++ b ++ c = a ++ (b ++ c) :=
  String.append_assoc a b c

theorem str_append_ne_of_length_lt (a m b : String)
    (h : b.data.length < a.data.length) : a ++ m ≠ b := by
  intro he
  have hd := congrArg (fun s => s.data.length) he
  simp only [String.data_append, List.length_append] at hd
  omega

theorem str_append_ne_of_incomp (a m b : String)
    (h1 : a.data.isPrefixOf b.data = false)
    (h2 : b.data.isPrefixOf a.data = false) : a ++ m ≠ b := by
  intro he
  have hd : a.data ++ m.data = b.data ++ [] := by
    rw [List.append_nil, ← String.data_append, he]
  rcases List.append_eq_append_iff.mp hd with ⟨t, ht, _⟩ | ⟨t, ht, _⟩
  · have hp : a.data <+: b.data := ⟨t, ht.symm⟩
    rw [← List.isPrefixOf_iff_prefix, h1] at hp
    exact Bool.false_ne_true hp
  · have hp : b.data <+: a.data := ⟨t, ht.symm⟩
    rw [← List.isPrefixOf_iff_prefix, h2] at hp
    exact Bool.false_ne_true hp

theorem startsWithStr_append (p t : String) : startsWithStr (p ++ t) p = true := by
  unfold startsWithStr
  rw [String.data_append]
  exact List.isPrefixOf_iff_prefix.mpr (List.prefix_append _ _)

theorem not_startsWithStr_append (p t q : String)
    (h1 : q.data.isPrefixOf p.data = false)
    (h2 : p.data.isPrefixOf q.data = false) :
    startsWithStr (p ++ t) q = false := by
  unfold startsWithStr
  rw [String.data_append]
  cases hq : (q.data.isPrefixOf (p.data ++ t.data)) with
  | false => rfl
  | true =>
    exfalso
    obtain ⟨u, hu⟩ := List.isPrefixOf_iff_prefix.mp hq
    rcases List.append_eq_append_iff.mp hu with ⟨s, hs, _⟩ | ⟨s, hs, _⟩
    · have hp : q.data <+: p.data := ⟨s, hs.symm⟩
      rw [← List.isPrefixOf_iff_prefix, h1] at hp
      exact Bool.false_ne_true hp
    · have hp : p.data <+: q.data := ⟨s, hs.symm⟩
      rw [← List.isPrefixOf_iff_prefix, h2] at hp
      exact Bool.false_ne_true hp

theorem stripPrefixUnwrap_append (p t : String) :
    stripPrefixUnwrap (p ++ t) p = t := by
  unfold stripPrefixUnwrap
  rw [String.data_append, List.drop_left]

/-! ## Route-level claims -/

/-- C6: for every text m, a request routed to the path /echo/ followed
by m yields status 200 with Content-Type text/plain, a Content-Length
equal to the byte length of m, and a body exactly m, independent of the
method, the headers, the body and the configured directory: the echo
round-trip is the identity and applies no percent-decoding. -/
theorem c6_echo_roundtrip (w : World) (dir : Option String)
    (method : HttpMethod) (hdrs : List (String × String)) (body m : String) :
    route w dir method ("/echo/" ++ m) hdrs body =
      [mkSent ⟨.Ok,
        [("Content-Type", "text/plain"),
         ("Content-Length", toString (byteLen m))],
        m⟩] := by
  have h1 : ("/echo/" ++ m) ≠ "/" :=
    str_append_ne_of_length_lt _ _ _ (by decide)
  have h2 : ("/echo/" ++ m) ≠ "/user-agent" :=
    str_append_ne_of_incomp _ _ _ (by decide) (by decide)
  have h3 := startsWithStr_append "/echo/" m
  unfold route
  rw [if_neg h1, if_neg h2, if_pos h3, stripPrefixUnwrap_append]

/-- C7: a request routed to the exact path /user-agent answers 200 with
Content-Type text/plain, Content-Length equal to the byte length of the
value of the first header whose name is exactly User-Agent
(case-sensitive), and that value as body; when no such header exists it
answers 404. -/
theorem c7_user_agent (w : World) (dir : Option String)
    (method : HttpMethod) (hdrs : List (String × String)) (body : String) :
    route w dir method "/user-agent" hdrs body =
      match hdrs.find? (fun kv => kv.1 == "User-Agent") with
      | some kv =>
        [mkSent ⟨.Ok,
          [("Content-Type", "text/plain"),
           ("Content-Length", toString (byteLen kv.2))],
          kv.2⟩]
      | none => [mkSent (Response.ofStatus .NotFound)] := by
  unfold route
  rw [if_neg (by decide), if_pos rfl]

/-- C3: a GET request routed to /files/ followed by name, with a base
directory configured and the joined path naming a readable file, answers
200 with Content-Type application/octet-stream, Content-Length equal to
the byte size of the file content, and streams the file content
byte-for-byte as the body after the head. -/
theorem c3_serve_file (w : World) (d name content : String)
    (hdrs : List (String × String)) (body : String)
    (hfs : w.fs (d ++ name) = some content) :
    route w (some d) .GET ("/files/" ++ name) hdrs body =
      [⟨⟨.Ok,
          [("Content-Type", "application/octet-stream"),
           ("Content-Length", toString (byteLen content))],
          ""⟩,
        content⟩] := by
  have h1 : ("/files/" ++ name) ≠ "/" :=
    str_append_ne_of_length_lt _ _ _ (by decide)
  have h2 : ("/files/" ++ name) ≠ "/user-agent" :=
    str_append_ne_of_incomp _ _ _ (by decide) (by decide)
  have h3 : startsWithStr ("/files/" ++ name) "/echo/" = false :=
    not_startsWithStr_append _ _ _ (by decide) (by decide)
  have h4 := startsWithStr_append "/files/" name
  unfold route
  rw [if_neg h1, if_neg h2, if_neg (by simp [h3]), if_pos h4]
  show send_file w ("/files/" ++ name) d = _
  simp only [send_file, stripPrefixUnwrap_append, hfs]

/-- Witness for c3_serve_file at a concrete world and file. -/
theorem c3_serve_file_witness :
    route ⟨fun p => if p = "/d/f.txt" then some "hello" else none,
           fun _ _ => false⟩
      (some "/d/") .GET ("/files/" ++ "f.txt") [] "" =
      [⟨⟨.Ok,
          [("Content-Type", "application/octet-stream"),
           ("Content-Length", toString (byteLen "hello"))],
          ""⟩,
        "hello"⟩] :=
  c3_serve_file _ "/d/" "f.txt" "hello" [] "" (by decide)

/-- C10: a request routed to a path starting with /files/ while a base
directory is configured, with a method that is neither GET nor POST
(PUT, DELETE, ...), falls through both file branches: nothing at all is
written on the connection. -/
theorem c10_files_other_methods (w : World) (d path : String)
    (method : HttpMethod) (hdrs : List (String × String)) (body : String)
    (hstart : startsWithStr path "/files/" = true)
    (hg : method ≠ .GET) (hp : method ≠ .POST) :
    route w (some d) method path hdrs body = [] := by
  obtain ⟨t, ht⟩ := List.isPrefixOf_iff_prefix.mp hstart
  have hpath : path = "/files/" ++ String.mk t := by
    have : path.data = ("/files/" ++ String.mk t).data := by
      rw [String.data_append, ← ht]
    cases path
    exact congrArg String.mk this
  subst hpath
  have h1 : ("/files/" ++ String.mk t) ≠ "/" :=
    str_append_ne_of_length_lt _ _ _ (by decide)
  have h2 : ("/files/" ++ String.mk t) ≠ "/user-agent" :=
    str_append_ne_of_incomp _ _ _ (by decide) (by decide)
  have h3 : startsWithStr ("/files/" ++ String.mk t) "/echo/" = false :=
    not_startsWithStr_append _ _ _ (by decide) (by decide)
  have h4 := startsWithStr_append "/files/" (String.mk t)
  unfold route
  rw [if_neg h1, if_neg h2, if_neg (by simp [h3]), if_pos h4]
  show (if method = HttpMethod.GET then _
        else if method = HttpMethod.POST then _ else []) = []
  rw [if_neg hg, if_neg hp]

/-- Witness for c10_files_other_methods: a PUT to a files path with a
directory configured produces no response bytes. -/
theorem c10_files_other_methods_witness :
    route ⟨fun _ => some "x", fun _ _ => true⟩ (some "/d/") .PUT
      "/files/f.txt" [] "body" = [] :=
  c10_files_other_methods _ "/d/" "/files/f.txt" .PUT [] "body"
    (by decide) (by decide) (by decide)

/-- C1 (code divergence): save_file opens the target with File::open,
answers 200 OK — not 201 Created — when the write succeeds, writes
nothing at all when the open fails, and PUT requests never reach
save_file: at the concrete failing inputs, a POST whose open and write
succeed gets status Ok (numeric 200, while Created is 201), a POST
whose open fails gets no response, and a PUT gets no response. -/
theorem c1_save_file_divergence :
    route ⟨fun _ => some "old", fun _ _ => true⟩ (some "/dir/") .POST
        "/files/f.txt" [] "hello" = [mkSent (Response.ofStatus .Ok)]
    ∧ HttpStatusCode.toNat .Ok = 200
    ∧ HttpStatusCode.toNat .Created = 201
    ∧ route ⟨fun _ => none, fun _ _ => true⟩ (some "/dir/") .POST
        "/files/f.txt" [] "hello" = []
    ∧ route ⟨fun _ => some "old", fun _ _ => true⟩ (some "/dir/") .PUT
        "/files/f.txt" [] "hello" = []
    ∧ handle_connection ⟨fun _ => some "old", fun _ _ => true⟩
        (some "/dir/") "POST /files/f.txt HTTP/1.1\r\n\r\nhello" =
        [mkSent (Response.ofStatus .Ok)] := by
  refine ⟨by decide, rfl, rfl, by decide, by decide, by decide⟩

/-- C2 (code divergence): a GET for a file whose open fails (it does
not exist) writes no response bytes at all — the open error propagates
out of send_file and handle_connection discards it — instead of the 404
the claim states. -/
theorem c2_missing_file_divergence :
    route ⟨fun _ => none, fun _ _ => true⟩ (some "/dir/") .GET
        "/files/missing.txt" [] "" = []
    ∧ handle_connection ⟨fun _ => none, fun _ _ => true⟩ (some "/dir/")
        "GET /files/missing.txt HTTP/1.1\r\n\r\n" = [] := by
  refine ⟨by decide, by decide⟩

/-- C9 counterexample: in the biased select of main the accept loop is
the first branch, so when both branches are simultaneously ready the
winner is the accept loop, not the shutdown branch. -/
theorem c9_counterexample :
    ¬ (select_biased true true = some MainBranch.shutdown) := by decide

/-- C9 (amended): the accept loop is raced against the shutdown signal
with a biased select that polls the branches in declaration order with
the accept loop first: when both are simultaneously ready the accept
loop wins, and the shutdown branch wins exactly when it is ready and
the accept loop is not. -/
theorem c9_biased_select :
    select_biased true true = some .acceptLoop
    ∧ select_biased true false = some .acceptLoop
    ∧ select_biased false true = some .shutdown
    ∧ select_biased false false = none := by decide

/-! ## Request parsing: findCh / rfindCh theory and claims C4, C5, C8 -/

theorem findCh_eq_none_iff (c : Char) (cs : List Char) :
    findCh c cs = none ↔ ∀ x ∈ cs, x ≠ c := by
  induction cs with
  | nil => simp [findCh]
  | cons x xs ih =>
    by_cases hx : x = c
    · subst hx
      simp [findCh]
    · simp [findCh, hx, Option.map_eq_none', ih]

theorem rfindCh_eq_none_iff (c : Char) (cs : List Char) :
    rfindCh c cs = none ↔ ∀ x ∈ cs, x ≠ c := by
  induction cs with
  | nil => simp [rfindCh]
  | cons x xs ih =>
    simp only [rfindCh]
    cases hr : rfindCh c xs with
    | some i =>
      constructor
      · intro h
        exact absurd h (by simp)
      · intro h
        have hx : rfindCh c xs = none :=
          ih.mpr (fun y hy => h y (List.mem_cons_of_mem _ hy))
        exact absurd (hx.symm.trans hr) (by simp)
    | none =>
      by_cases hx : x = c
      · subst hx
        simp [List.forall_mem_cons]
      · simp only [if_neg hx, List.forall_mem_cons]
        exact iff_of_true trivial ⟨hx, ih.mp hr⟩

theorem findCh_eq_some_iff (c : Char) (cs : List Char) (i : Nat) :
    findCh c cs = some i ↔
      (cs[i]? = some c ∧ ∀ j, j < i → cs[j]? ≠ some c) := by
  induction cs generalizing i with
  | nil => simp [findCh]
  | cons x xs ih =>
    by_cases hx : x = c
    · subst hx
      simp only [findCh, if_pos rfl]
      constructor
      · intro h
        injection h with h
        subst h
        simp
      · rintro ⟨hget, hmin⟩
        cases i with
        | zero => rfl
        | succ n =>
          exact absurd (by simp : (x :: xs)[0]? = some x)
            (by exact hmin 0 (Nat.succ_pos n))
    · simp only [findCh, if_neg hx]
      cases i with
      | zero =>
        constructor
        · intro h
          rcases Option.map_eq_some'.mp h with ⟨k, _, hk⟩
          omega
        · rintro ⟨hget, _⟩
          simp only [List.getElem?_cons_zero] at hget
          injection hget with hget
          exact absurd hget hx
      | succ n =>
        constructor
        · intro h
          rcases Option.map_eq_some'.mp h with ⟨k, hk, hkn⟩
          have hkn' : k = n := by omega
          rw [hkn'] at hk
          obtain ⟨hget, hmin⟩ := (ih n).mp hk
          refine ⟨by simpa using hget, ?_⟩
          intro j hj
          cases j with
          | zero =>
            simp only [List.getElem?_cons_zero]
            intro hc
            injection hc with hc
            exact hx hc
          | succ jm =>
            simp only [List.getElem?_cons_succ]
            exact hmin jm (by omega)
        · rintro ⟨hget, hmin⟩
          simp only [List.getElem?_cons_succ] at hget
          have hfxs : findCh c xs = some n := by
            refine (ih n).mpr ⟨hget, ?_⟩
            intro j hj
            have := hmin (j + 1) (by omega)
            simpa using this
          rw [hfxs]
          rfl

theorem rfindCh_eq_some_iff (c : Char) (cs : List Char) (i : Nat) :
    rfindCh c cs = some i ↔
      (cs[i]? = some c ∧ ∀ j, i < j → cs[j]? ≠ some c) := by
  induction cs generalizing i with
  | nil => simp [rfindCh]
  | cons x xs ih =>
    simp only [rfindCh]
    cases hr : rfindCh c xs with
    | some k =>
      have hxs := (ih k).mp hr
      constructor
      · intro h
        injection h with h
        subst h
        refine ⟨by simpa using hxs.1, ?_⟩
        intro j hj
        cases j with
        | zero => omega
        | succ n =>
          simp only [List.getElem?_cons_succ]
          exact hxs.2 n (by omega)
      · rintro ⟨hg, hm⟩
        have hck : (x :: xs)[k + 1]? = some c := by simpa using hxs.1
        rcases Nat.lt_trichotomy i (k + 1) with hlt | heq | hgt
        · exact absurd hck (hm (k + 1) hlt)
        · exact congrArg some heq.symm
        · exfalso
          cases i with
          | zero => omega
          | succ n =>
            have hgx : xs[n]? = some c := by simpa using hg
            exact hxs.2 n (by omega) hgx
    | none =>
      have hall : ∀ y ∈ xs, y ≠ c := (rfindCh_eq_none_iff c xs).mp hr
      by_cases hx : x = c
      · subst hx
        simp only [if_pos rfl]
        constructor
        · intro h
          injection h with h
          subst h
          refine ⟨by simp, ?_⟩
          intro j hj
          cases j with
          | zero => omega
          | succ n =>
            simp only [List.getElem?_cons_succ]
            intro hc
            exact hall x (List.getElem?_mem hc) rfl
        · rintro ⟨hg, hm⟩
          cases i with
          | zero => rfl
          | succ n =>
            exfalso
            have hgx : xs[n]? = some x := by simpa using hg
            exact hall x (List.getElem?_mem hgx) rfl
      · simp only [if_neg hx]
        constructor
        · intro h
          exact absurd h (by simp)
        · rintro ⟨hg, _⟩
          exfalso
          cases i with
          | zero =>
            simp only [List.getElem?_cons_zero] at hg
            injection hg with hg
            exact hx hg
          | succ n =>
            simp only [List.getElem?_cons_succ] at hg
            exact hall c (List.getElem?_mem hg) rfl

theorem countP_eq_zero_iff_findCh (c : Char) (cs : List Char) :
    cs.countP (fun x => x == c) = 0 ↔ findCh c cs = none := by
  rw [List.countP_eq_zero, findCh_eq_none_iff]
  simp

theorem findCh_rfindCh_none (c : Char) (cs : List Char) :
    findCh c cs = none ↔ rfindCh c cs = none := by
  rw [findCh_eq_none_iff, rfindCh_eq_none_iff]

theorem countP_eq_one_iff (c : Char) (cs : List Char) :
    cs.countP (fun x => x == c) = 1 ↔
      ∃ i, findCh c cs = some i ∧ rfindCh c cs = some i := by
  induction cs with
  | nil => simp [findCh, rfindCh]
  | cons x xs ih =>
    rw [List.countP_cons]
    by_cases hx : x = c
    · subst hx
      rw [if_pos (by simp)]
      simp only [findCh, if_pos rfl, rfindCh]
      cases hr : rfindCh x xs with
      | some k =>
        constructor
        · intro h
          have h0 : xs.countP (fun y => y == x) = 0 := by omega
          rw [countP_eq_zero_iff_findCh, findCh_rfindCh_none] at h0
          rw [h0] at hr
          cases hr
        · rintro ⟨i, hi0, hik⟩
          injection hi0 with hi0
          injection hik with hik
          omega
      | none =>
        constructor
        · intro _
          exact ⟨0, rfl, rfl⟩
        · intro _
          have h0 : findCh x xs = none := (findCh_rfindCh_none x xs).mpr hr
          rw [← countP_eq_zero_iff_findCh] at h0
          omega
    · rw [if_neg (by simp [hx])]
      simp only [findCh, if_neg hx, rfindCh, Nat.add_zero]
      cases hf : findCh c xs with
      | none =>
        have hr : rfindCh c xs = none := (findCh_rfindCh_none c xs).mp hf
        simp only [hr, if_neg hx, Option.map_none']
        constructor
        · intro h1
          have h0 : xs.countP (fun y => y == c) = 0 :=
            (countP_eq_zero_iff_findCh c xs).mpr hf
          omega
        · rintro ⟨i, hi, _⟩
          cases hi
      | some j =>
        cases hr : rfindCh c xs with
        | none =>
          rw [(findCh_rfindCh_none c xs).mpr hr] at hf
          cases hf
        | some k =>
          simp only [Option.map_some']
          rw [ih]
          constructor
          · rintro ⟨i, hif, hir⟩
            rw [hf] at hif
            rw [hr] at hir
            injection hif with hif
            injection hir with hir
            refine ⟨i + 1, by rw [hif], by rw [hir]⟩
          · rintro ⟨i, hij, hik⟩
            injection hij with hij
            injection hik with hik
            refine ⟨j, hf, ?_⟩
            rw [hr]
            have : k = j := by omega
            rw [this]

theorem countP_lt_two_iff (c : Char) (cs : List Char) :
    cs.countP (fun x => x == c) < 2 ↔
      (findCh c cs = none ∨
        ∃ i, findCh c cs = some i ∧ rfindCh c cs = some i) := by
  constructor
  · intro h
    rcases (by omega : cs.countP (fun x => x == c) = 0 ∨ cs.countP (fun x => x == c) = 1) with h0 | h1
    · exact Or.inl ((countP_eq_zero_iff_findCh c cs).mp h0)
    · exact Or.inr ((countP_eq_one_iff c cs).mp h1)
  · rintro (h0 | h1)
    · have := (countP_eq_zero_iff_findCh c cs).mpr h0
      omega
    · have := (countP_eq_one_iff c cs).mpr h1
      omega

/-- C4: request-line parsing fails exactly when the line has fewer than
two distinct space positions (the count of space characters is below
two), or when the method token — the trimmed text before the first
space, matched case-insensitively by HttpMethod.tryFrom — is not in the
method enumeration; on success the line is split at its first space
(position i1: a space with none before it) and its last space (position
i2: a space with none after it) into the method, the path and the
version. -/
theorem c4_request_line_parse (cs : List Char) :
    (parseFirstLine cs = none ↔
      cs.countP (fun x => x == ' ') < 2 ∨
      ∃ i1 i2, findCh ' ' cs = some i1 ∧ rfindCh ' ' cs = some i2 ∧
        i1 ≠ i2 ∧
        HttpMethod.tryFrom (trimStr (String.mk (cs.take i1))) = none)
    ∧ (∀ m p v, parseFirstLine cs = some (m, p, v) →
        ∃ i1 i2,
          cs[i1]? = some ' ' ∧ (∀ j, j < i1 → cs[j]? ≠ some ' ') ∧
          cs[i2]? = some ' ' ∧ (∀ j, i2 < j → cs[j]? ≠ some ' ') ∧
          i1 < i2 ∧
          HttpMethod.tryFrom (trimStr (String.mk (cs.take i1))) = some m ∧
          p = trimStr (String.mk ((cs.drop (i1 + 1)).take (i2 - i1 - 1))) ∧
          v = trimStr (String.mk (cs.drop (i2 + 1)))) := by
  cases hf : findCh ' ' cs with
  | none =>
    have hr : rfindCh ' ' cs = none := (findCh_rfindCh_none _ _).mp hf
    have hparse : parseFirstLine cs = none := by
      unfold parseFirstLine parseRequestLineRaw
      simp only [hf, hr]
    constructor
    · rw [hparse]
      constructor
      · intro _
        exact Or.inl ((countP_lt_two_iff _ _).mpr (Or.inl hf))
      · intro _
        rfl
    · intro m p v h
      rw [hparse] at h
      cases h
  | some i1 =>
    cases hr : rfindCh ' ' cs with
    | none =>
      have hn := (findCh_rfindCh_none ' ' cs).mpr hr
      rw [hn] at hf
      cases hf
    | some i2 =>
      by_cases hii : i1 = i2
      · subst hii
        have hparse : parseFirstLine cs = none := by
          unfold parseFirstLine parseRequestLineRaw
          simp only [hf, hr, ne_eq, not_true_eq_false, if_false]
        constructor
        · rw [hparse]
          constructor
          · intro _
            exact Or.inl ((countP_lt_two_iff _ _).mpr (Or.inr ⟨i1, hf, hr⟩))
          · intro _
            rfl
        · intro m p v h
          rw [hparse] at h
          cases h
      · have hraw : parseRequestLineRaw cs =
            some (trimStr (String.mk (cs.take i1)),
              trimStr (String.mk ((cs.drop (i1 + 1)).take (i2 - i1 - 1))),
              trimStr (String.mk (cs.drop (i2 + 1)))) := by
          unfold parseRequestLineRaw
          simp only [hf, hr, ne_eq, hii, not_false_eq_true, if_true]
        have hcount : ¬ (cs.countP (fun x => x == ' ') < 2) := by
          rw [countP_lt_two_iff]
          rintro (h0 | ⟨i, hif, hir⟩)
          · rw [h0] at hf
            cases hf
          · rw [hf] at hif
            injection hif with hif
            rw [hr] at hir
            injection hir with hir
            exact hii (by omega)
        obtain ⟨hg1, hmin⟩ := (findCh_eq_some_iff _ _ _).mp hf
        obtain ⟨hg2, hmax⟩ := (rfindCh_eq_some_iff _ _ _).mp hr
        have hlt : i1 < i2 := by
          rcases Nat.lt_or_ge i1 i2 with h | h
          · exact h
          · exfalso
            exact hmin i2 (by omega) hg2
        have hfl : parseFirstLine cs =
            match HttpMethod.tryFrom (trimStr (String.mk (cs.take i1))) with
            | none => none
            | some hm =>
              some (hm,
                trimStr (String.mk ((cs.drop (i1 + 1)).take (i2 - i1 - 1))),
                trimStr (String.mk (cs.drop (i2 + 1)))) := by
          unfold parseFirstLine
          simp only [hraw]
        constructor
        · rw [hfl]
          cases htf : HttpMethod.tryFrom (trimStr (String.mk (cs.take i1))) with
          | none =>
            simp only [htf]
            constructor
            · intro _
              exact Or.inr ⟨i1, i2, rfl, rfl, hii, htf⟩
            · intro _
              trivial
          | some hm =>
            simp only [htf]
            constructor
            · intro h
              cases h
            · rintro (h | ⟨j1, j2, hjf, hjr, hneq, hnone⟩)
              · exact absurd h hcount
              · injection hjf with hjf
                subst hjf
                rw [htf] at hnone
                cases hnone
        · intro m p v h
          rw [hfl] at h
          cases htf : HttpMethod.tryFrom (trimStr (String.mk (cs.take i1))) with
          | none =>
            rw [htf] at h
            cases h
          | some hm =>
            rw [htf] at h
            injection h with h2
            injection h2 with hmeq hpv
            injection hpv with hpeq hveq
            subst hmeq
            exact ⟨i1, i2, hg1, hmin, hg2, hmax, hlt, htf, hpeq.symm, hveq.symm⟩

/-- Witness for c4_request_line_parse: an unknown method token makes
parsing fail on a line with two space positions. -/
theorem c4_request_line_parse_witness :
    parseFirstLine "NOPE /x HTTP/1.1".data = none :=
  (c4_request_line_parse "NOPE /x HTTP/1.1".data).1.mpr
    (Or.inr ⟨4, 7, by decide, by decide, by decide, by decide⟩)

/-- The body fold appends every line followed by one newline. -/
theorem foldl_append_nl (ls : List String) (a : String) (h : ls ≠ []) :
    ls.foldl (fun acc l => acc ++ l ++ "\n") a = a ++ joinNL ls ++ "\n" := by
  induction ls generalizing a with
  | nil => cases h rfl
  | cons x xs ih =>
    cases xs with
    | nil => simp [joinNL]
    | cons y ys =>
      rw [List.foldl_cons, ih (a ++ x ++ "\n") (by simp)]
      simp [joinNL, String.append_assoc]

/-- The fold-then-truncate body construction equals the lines rejoined
with a single newline between them and no trailing newline. -/
theorem foldBody_eq_joinNL (ls : List String) : foldBody ls = joinNL ls := by
  cases ls with
  | nil => rfl
  | cons x xs =>
    simp only [foldBody]
    rw [foldl_append_nl _ _ (by simp), str_empty_append]
    have hne : ¬ (joinNL (x :: xs) ++ "\n" = "") := by
      intro h
      have hd := congrArg (fun s => s.data.length) h
      simp [String.data_append] at hd
    rw [if_neg hne, String.data_append]
    show String.mk (((joinNL (x :: xs)).data ++ ['\n']).dropLast) = _
    rw [List.dropLast_concat]

/-- C5: for the lines after the request line, the body is all lines
after the first empty line rejoined with a single newline between them
and no trailing newline; the header lines are those up to the first
empty line, passed one by one through split_header with rejected lines
silently skipped; split_header rejects a line exactly when it contains
no colon, and on a line whose first colon sits at position i it yields
the text before the colon as name and the text after it, with leading
whitespace trimmed, as value. -/
theorem c5_headers_body (ls : List String) :
    requestBody ls = joinNL ((ls.dropWhile (fun l => !(l == ""))).drop 1)
    ∧ requestHeaders ls =
        (ls.takeWhile (fun l => !(l == ""))).filterMap split_header
    ∧ (∀ l : String, split_header l = none ↔ ∀ x ∈ l.data, x ≠ ':')
    ∧ (∀ (l : String) (i : Nat), l.data[i]? = some ':' →
        (∀ j, j < i → l.data[j]? ≠ some ':') →
        split_header l = some (String.mk (l.data.take i),
          trimStartStr (String.mk (l.data.drop (i + 1))))) := by
  refine ⟨foldBody_eq_joinNL _, rfl, ?_, ?_⟩
  · intro l
    unfold split_header
    cases hf : findCh ':' l.data with
    | none =>
      constructor
      · intro _
        exact (findCh_eq_none_iff ':' l.data).mp hf
      · intro _
        rfl
    | some i =>
      have hchar := (findCh_eq_some_iff ':' l.data i).mp hf
      constructor
      · intro h
        cases h
      · intro hall
        exact (hall ':' (List.getElem?_mem hchar.1) rfl).elim
  · intro l i hget hmin
    have hf : findCh ':' l.data = some i :=
      (findCh_eq_some_iff ':' l.data i).mpr ⟨hget, hmin⟩
    unfold split_header
    rw [hf]

/-- Witness for c5_headers_body: splitting a concrete header line at
its first colon. -/
theorem c5_headers_body_witness :
    split_header "Host: example.com" =
      some (String.mk ("Host: example.com".data.take 4),
        trimStartStr (String.mk ("Host: example.com".data.drop 5))) :=
  (c5_headers_body []).2.2.2 "Host: example.com" 4 (by decide) (by decide)

/-- Every response the router produces satisfies the Content-Length
invariant: a Content-Length header equals the byte length of the body
bytes written after the blank-line separator, streamed bytes
included. -/
theorem route_content_length (w : World) (dir : Option String)
    (method : HttpMethod) (path : String) (hdrs : List (String × String))
    (body : String) (s : Sent) (v : String)
    (hs : s ∈ route w dir method path hdrs body)
    (hv : ("Content-Length", v) ∈ s.response.headers) :
    v = toString (byteLen (s.response.body ++ s.streamed)) := by
  unfold route at hs
  by_cases h1 : path = "/"
  · rw [if_pos h1] at hs
    simp only [List.mem_singleton] at hs
    subst hs
    cases hv
  · rw [if_neg h1] at hs
    by_cases h2 : path = "/user-agent"
    · rw [if_pos h2] at hs
      cases hfind : hdrs.find? (fun kv => kv.1 == "User-Agent") with
      | some kv =>
        rw [hfind] at hs
        simp only [List.mem_singleton] at hs
        subst hs
        rcases List.mem_cons.mp hv with hp | hp
        · rw [Prod.mk.injEq] at hp
          exact absurd hp.1 (by decide)
        · rcases List.mem_cons.mp hp with hq | hq
          · rw [Prod.mk.injEq] at hq
            show v = toString (byteLen (kv.2 ++ ""))
            rw [str_append_empty]
            exact hq.2
          · cases hq
      | none =>
        rw [hfind] at hs
        simp only [List.mem_singleton] at hs
        subst hs
        cases hv
    · rw [if_neg h2] at hs
      by_cases h3 : startsWithStr path "/echo/" = true
      · rw [if_pos h3] at hs
        simp only [List.mem_singleton] at hs
        subst hs
        rcases List.mem_cons.mp hv with hp | hp
        · rw [Prod.mk.injEq] at hp
          exact absurd hp.1 (by decide)
        · rcases List.mem_cons.mp hp with hq | hq
          · rw [Prod.mk.injEq] at hq
            show v = toString (byteLen (stripPrefixUnwrap path "/echo/" ++ ""))
            rw [str_append_empty]
            exact hq.2
          · cases hq
      · rw [if_neg h3] at hs
        by_cases h4 : startsWithStr path "/files/" = true
        · rw [if_pos h4] at hs
          cases dir with
          | none =>
            simp only [List.mem_singleton] at hs
            subst hs
            cases hv
          | some d =>
            change s ∈ (if method = HttpMethod.GET then send_file w path d
              else if method = HttpMethod.POST then save_file w path d body
              else []) at hs
            by_cases hm1 : method = HttpMethod.GET
            · rw [if_pos hm1] at hs
              simp only [send_file] at hs
              cases hfs : w.fs (d ++ stripPrefixUnwrap path "/files/") with
              | none =>
                rw [hfs] at hs
                cases hs
              | some content =>
                rw [hfs] at hs
                simp only [List.mem_singleton] at hs
                subst hs
                rcases List.mem_cons.mp hv with hp | hp
                · rw [Prod.mk.injEq] at hp
                  exact absurd hp.1 (by decide)
                · rcases List.mem_cons.mp hp with hq | hq
                  · rw [Prod.mk.injEq] at hq
                    show v = toString (byteLen ("" ++ content))
                    rw [str_empty_append]
                    exact hq.2
                  · cases hq
            · rw [if_neg hm1] at hs
              by_cases hm2 : method = HttpMethod.POST
              · rw [if_pos hm2] at hs
                simp only [save_file] at hs
                cases hfs : w.fs (d ++ stripPrefixUnwrap path "/files/") with
                | none =>
                  rw [hfs] at hs
                  cases hs
                | some old =>
                  rw [hfs] at hs
                  simp only [List.mem_singleton] at hs
                  subst hs
                  cases hv
              · rw [if_neg hm2] at hs
                cases hs
        · rw [if_neg h4] at hs
          simp only [List.mem_singleton] at hs
          subst hs
          cases hv

/-- C8: for every response handle_connection writes, a Content-Length
header, when present, equals the exact byte length of the bytes written
on the wire after the blank-line separator — the response body plus any
streamed file content — in every handler branch. -/
theorem c8_content_length_invariant (w : World) (dir : Option String)
    (buf : String) (s : Sent) (v : String)
    (hs : s ∈ handle_connection w dir buf)
    (hv : ("Content-Length", v) ∈ s.response.headers) :
    v = toString (byteLen s.bodyBytes) := by
  unfold handle_connection at hs
  cases hl : rustLines buf with
  | nil =>
    rw [hl] at hs
    simp only [List.mem_singleton] at hs
    subst hs
    cases hv
  | cons first rest =>
    rw [hl] at hs
    change s ∈ (match parseRequestLineRaw first.data with
      | none => [mkSent (Response.ofStatus .BadRequest)]
      | some (mStr, path, _version) =>
        match HttpMethod.tryFrom mStr with
        | none => []
        | some method =>
          route w dir method path (requestHeaders rest) (requestBody rest)) at hs
    cases hraw : parseRequestLineRaw first.data with
    | none =>
      rw [hraw] at hs
      simp only [List.mem_singleton] at hs
      subst hs
      cases hv
    | some t =>
      obtain ⟨mStr, path, ver⟩ := t
      rw [hraw] at hs
      change s ∈ (match HttpMethod.tryFrom mStr with
        | none => []
        | some method =>
          route w dir method path (requestHeaders rest) (requestBody rest)) at hs
      cases htf : HttpMethod.tryFrom mStr with
      | none =>
        rw [htf] at hs
        cases hs
      | some method =>
        rw [htf] at hs
        change s ∈ route w dir method path (requestHeaders rest)
          (requestBody rest) at hs
        exact route_content_length w dir method path _ _ s v hs hv

/-- Witness for c8_content_length_invariant on a concrete echo
request. -/
theorem c8_content_length_invariant_witness :
    "3" = toString (byteLen (Sent.bodyBytes
      ⟨⟨.Ok, [("Content-Type", "text/plain"), ("Content-Length", "3")],
        "abc"⟩, ""⟩)) :=
  c8_content_length_invariant ⟨fun _ => none, fun _ _ => false⟩ none
    "GET /echo/abc HTTP/1.1\r\n\r\n"
    ⟨⟨.Ok, [("Content-Type", "text/plain"), ("Content-Length", "3")],
      "abc"⟩, ""⟩
    "3" (by decide) (by decide)
